import Mathlib

/-!
Verification development for the request-coalescer and distributed-lock
demos in the article-materials repository (singleflight/main.go).

The embedding follows the Go source closely:
- Go errors are values carrying a message; errors.Wrap prepends a message.
- A Go interface value (the res returned by Group.Do) is modelled by GoAny;
  the type assertion res as *Product is GoAny.asProductPtr.
- ProccesWrapper lines 31-41 are proccesWrapperResult, a function of the
  pair returned by Group.Do.
- The body of getProductFromCache lines 49-86 is embedded with an explicit
  trace of redis operations and a flag recording that the call went through
  the coalescer (the source calls ProccesWrapper unconditionally).
-/

/-- Go struct Product from singleflight/main.go lines 16-19. -/
structure Product where
  ID : Int
  Name : String
deriving DecidableEq, Repr

/-- A Go error value, identified by its message (errors.New). -/
structure GoErr where
  msg : String
deriving DecidableEq, Repr

/-- errors.Wrap e m produces an error whose message prepends m to the cause. -/
def wrap (e : GoErr) (m : String) : GoErr :=
  ⟨m ++ ": " ++ e.msg⟩

/-- A Go interface value as returned by Group.Do: either a nil interface,
a value of dynamic type Product pointer (the pointer may itself be nil,
hence Option Product), or a value of some other dynamic type. -/
inductive GoAny where
  | nilAny : GoAny
  | productPtr (p : Option Product) : GoAny
  | other (tag : String) : GoAny
deriving DecidableEq, Repr

/-- The Go type assertion res as Product pointer: succeeds exactly when the
interface holds dynamic type Product pointer (even a nil pointer). -/
def GoAny.asProductPtr : GoAny → Option (Option Product)
  | .productPtr p => some p
  | _ => none

/-- The fixed error built at line 39 of singleflight/main.go. -/
def typeAssertionErr : GoErr :=
  ⟨"unexpected type assertion failure"⟩

/-- Lines 31-41 of ProccesWrapper for T instantiated at Product pointer, as a
function of the (res, err) pair that Group.Do returned: on a successful
type assertion return (result, err); on failure return the zero value of T
(a nil Product pointer) together with typeAssertionErr, discarding err. -/
def proccesWrapperResult (res : GoAny) (err : Option GoErr) :
    Option Product × Option GoErr :=
  match res.asProductPtr with
  | some result => (result, err)
  | none => (none, some typeAssertionErr)

/-- Boxing a value of type T = Product pointer into an interface, as done by
wrapperFn at lines 27-29: the resulting interface always has dynamic type
Product pointer. -/
def boxProductPtr (p : Option Product) : GoAny :=
  .productPtr p

/-- Modelled from the spec: Group.Do of golang.org/x/sync/singleflight is not
under src/; per spec section 4.1, when no Call is registered for the key the
caller registers one, runs workFn, and receives exactly the stored result.
So an initiating ProccesWrapper call boxes the result of fn and immediately
unboxes it through the type assertion. -/
def proccesWrapperInitiating (fn : Unit → Option Product × Option GoErr) :
    Option Product × Option GoErr :=
  let r := fn ()
  proccesWrapperResult (boxProductPtr r.1) r.2

/-- C2: a ProccesWrapper call that initiates the execution returns exactly the
(value, error) pair produced by fn; the value reaches the initiating caller
and the error passes through unchanged. -/
theorem proccesWrapper_initiating_exact
    (fn : Unit → Option Product × Option GoErr) :
    proccesWrapperInitiating fn = fn () := by
  simp [proccesWrapperInitiating, proccesWrapperResult, boxProductPtr,
    GoAny.asProductPtr]

/-- C7: whenever the result returned through the coalescer does not have the
dynamic type the caller expects, ProccesWrapper returns the zero value of T
together with a non-nil coalescer-internal error; the mismatched value is
never returned as if it were a T. -/
theorem proccesWrapper_type_mismatch_reported (res : GoAny) (err : Option GoErr)
    (h : res.asProductPtr = none) :
    (proccesWrapperResult res err).1 = none ∧
      (proccesWrapperResult res err).2 = some typeAssertionErr := by
  simp [proccesWrapperResult, h]

/-- Witness for C7 at the concrete mismatched value GoAny.other of tag str. -/
theorem proccesWrapper_type_mismatch_reported_witness :
    (proccesWrapperResult (.other "str") none).1 = none ∧
      (proccesWrapperResult (.other "str") none).2 = some typeAssertionErr :=
  proccesWrapper_type_mismatch_reported (.other "str") none (by decide)

/-- C9: when the type assertion inside ProccesWrapper fails, the function
returns the zero value of T with the fixed error of line 39, and the error
that Group.Do returned is discarded: even a work-function error accompanied
by a mismatched value is replaced, not propagated. -/
theorem proccesWrapper_discards_do_error (res : GoAny) (e : GoErr)
    (h : res.asProductPtr = none) :
    proccesWrapperResult res (some e) = (none, some typeAssertionErr) ∧
      proccesWrapperResult res (some e) = proccesWrapperResult res none := by
  simp [proccesWrapperResult, h]

/-- Witness for C9 at a nil interface value and a concrete upstream error. -/
theorem proccesWrapper_discards_do_error_witness :
    proccesWrapperResult .nilAny (some ⟨"boom"⟩) =
        (none, some typeAssertionErr) ∧
      proccesWrapperResult .nilAny (some ⟨"boom"⟩) =
        proccesWrapperResult .nilAny none :=
  proccesWrapper_discards_do_error .nilAny ⟨"boom"⟩ (by decide)

/-- One operation issued to the redis client: a read of a key or a write of a
key with a serialized value. -/
inductive RedisOp where
  | get (key : String) : RedisOp
  | set (key : String) (val : String) : RedisOp
deriving DecidableEq, Repr

/-- Whether a redis operation mutates the store. -/
def RedisOp.isWrite : RedisOp → Bool
  | .get _ => false
  | .set _ _ => true

/-- The reply of rdb.Get(...).Result() for one key: redis.Nil when the key is
absent, the stored string on a hit, or a transport error. -/
inductive RedisReply where
  | nilReply : RedisReply
  | val (s : String) : RedisReply
  | errReply (e : GoErr) : RedisReply
deriving DecidableEq, Repr

/-- The cache collaborator as a pure map from key to reply. -/
def CacheState : Type := String → RedisReply

/-- The work function passed to ProccesWrapper at lines 61-79 of
getProductFromCache: read key product:id; on redis.Nil return (nil, nil); on
another error return it; otherwise unmarshal, wrapping an unmarshal failure.
json.Unmarshal is an external library and enters as the parameter um; the
second component is the trace of redis operations the body performs. -/
def fetchProductFn (um : String → Except GoErr Product) (cache : CacheState)
    (productID : Int) : (Option Product × Option GoErr) × List RedisOp :=
  ⟨match cache ("product:" ++ toString productID) with
    | .nilReply => (none, none)
    | .errReply e => (none, some e)
    | .val v =>
        match um v with
        | .error e => (none, some (wrap e "Failed to unmarshal product"))
        | .ok product => (some product, none),
   [RedisOp.get ("product:" ++ toString productID)]⟩

/-- The observable outcome of one call to getProductFromCache: the returned
pair, the trace of redis operations, whether the call went through the
coalescer, and whether Forget was called first. -/
structure FetchOutcome where
  product : Option Product
  error : Option GoErr
  redisOps : List RedisOp
  enteredCoalescer : Bool
  forgetCalled : Bool
deriving DecidableEq, Repr

/-- Lines 49-86 of getProductFromCache for a call that initiates the
execution: when currIdx = 2 the singleflight key is forgotten first (this
mutates only the group registry, not this call); then ProccesWrapper runs the
work function unconditionally, and a non-nil error is wrapped with the
message Failed to get product from cache. The cache lookup happens inside
the coalesced work function, so enteredCoalescer is true on every path. -/
def getProductFromCache (um : String → Except GoErr Product)
    (cache : CacheState) (productID : Int) (currIdx : Int) : FetchOutcome :=
  let fetched := fetchProductFn um cache productID
  let res := proccesWrapperResult (boxProductPtr fetched.1.1) fetched.1.2
  let returned : Option Product × Option GoErr :=
    match res.2 with
    | some e => (none, some (wrap e "Failed to get product from cache"))
    | none => (res.1, none)
  { product := returned.1
    error := returned.2
    redisOps := fetched.2
    enteredCoalescer := true
    forgetCalled := currIdx == 2 }

/-- A concrete unmarshal function used for counterexample inputs: every raw
string decodes to the product with ID 1 named Product 1. -/
def umOk : String → Except GoErr Product :=
  fun _ => .ok ⟨1, "Product 1"⟩

/-- A concrete cache holding a value for every key, so every lookup is a hit. -/
def cacheHit : CacheState :=
  fun _ => .val "raw"

/-- C4 counterexample: on a concrete cache hit (key product:1 holds a value
that unmarshals successfully) the call still enters the coalescer, refuting
the claim that a hit returns without entering the coalescer. -/
theorem getProductFromCache_hit_enters_coalescer :
    cacheHit ("product:" ++ toString (1 : Int)) = .val "raw" ∧
      umOk "raw" = .ok ⟨1, "Product 1"⟩ ∧
      (getProductFromCache umOk cacheHit 1 0).enteredCoalescer = true := by
  refine ⟨rfl, rfl, rfl⟩

/-- C4 amended: every call to getProductFromCache delegates to the coalescer
(the cache lookup runs inside the coalesced work function); on a hit whose
value unmarshals, the cached value is returned, through the coalescer. -/
theorem getProductFromCache_always_enters_coalescer
    (um : String → Except GoErr Product) (cache : CacheState)
    (productID currIdx : Int) (v : String) (p : Product)
    (hhit : cache ("product:" ++ toString productID) = .val v)
    (hum : um v = .ok p) :
    (getProductFromCache um cache productID currIdx).enteredCoalescer = true ∧
      (getProductFromCache um cache productID currIdx).product = some p ∧
      (getProductFromCache um cache productID currIdx).error = none := by
  simp [getProductFromCache, fetchProductFn, hhit, hum, proccesWrapperResult,
    boxProductPtr, GoAny.asProductPtr]

/-- Witness for C4 amended at the concrete hit input. -/
theorem getProductFromCache_always_enters_coalescer_witness :
    (getProductFromCache umOk cacheHit 1 0).enteredCoalescer = true ∧
      (getProductFromCache umOk cacheHit 1 0).product =
        some ⟨1, "Product 1"⟩ ∧
      (getProductFromCache umOk cacheHit 1 0).error = none :=
  getProductFromCache_always_enters_coalescer umOk cacheHit 1 0 "raw"
    ⟨1, "Product 1"⟩ rfl rfl

/-- C5: when the store reports that no record exists for the key (redis.Nil),
getProductFromCache returns a nil product and a nil error. -/
theorem getProductFromCache_notFound_is_empty_success
    (um : String → Except GoErr Product) (cache : CacheState)
    (productID currIdx : Int)
    (hmiss : cache ("product:" ++ toString productID) = .nilReply) :
    (getProductFromCache um cache productID currIdx).product = none ∧
      (getProductFromCache um cache productID currIdx).error = none := by
  simp [getProductFromCache, fetchProductFn, hmiss, proccesWrapperResult,
    boxProductPtr, GoAny.asProductPtr]

/-- A concrete cache in which every key is absent. -/
def cacheEmpty : CacheState :=
  fun _ => .nilReply

/-- Witness for C5 on the everywhere-empty cache. -/
theorem getProductFromCache_notFound_is_empty_success_witness :
    (getProductFromCache umOk cacheEmpty 1 0).product = none ∧
      (getProductFromCache umOk cacheEmpty 1 0).error = none :=
  getProductFromCache_notFound_is_empty_success umOk cacheEmpty 1 0 rfl

/-- C6: when the cached raw value fails to unmarshal, getProductFromCache
returns a non-nil error (the unmarshal error wrapped twice), never the
nil-value nil-error shape of a miss. -/
theorem getProductFromCache_unmarshal_failure_errors
    (um : String → Except GoErr Product) (cache : CacheState)
    (productID currIdx : Int) (v : String) (e : GoErr)
    (hhit : cache ("product:" ++ toString productID) = .val v)
    (hum : um v = .error e) :
    (getProductFromCache um cache productID currIdx).error =
        some (wrap (wrap e "Failed to unmarshal product")
          "Failed to get product from cache") ∧
      (getProductFromCache um cache productID currIdx).error ≠ none := by
  simp [getProductFromCache, fetchProductFn, hhit, hum, proccesWrapperResult,
    boxProductPtr, GoAny.asProductPtr]

/-- A concrete unmarshal function that rejects every raw string. -/
def umBad : String → Except GoErr Product :=
  fun _ => .error ⟨"invalid character"⟩

/-- Witness for C6 on a hit whose value always fails to unmarshal. -/
theorem getProductFromCache_unmarshal_failure_errors_witness :
    (getProductFromCache umBad cacheHit 1 0).error =
        some (wrap (wrap ⟨"invalid character"⟩ "Failed to unmarshal product")
          "Failed to get product from cache") ∧
      (getProductFromCache umBad cacheHit 1 0).error ≠ none :=
  getProductFromCache_unmarshal_failure_errors umBad cacheHit 1 0 "raw"
    ⟨"invalid character"⟩ rfl rfl

/-- C8: on every input and every outcome, the redis trace of
getProductFromCache is exactly one read of key product:id; in particular no
operation in the trace is a write, so the cache state is unchanged. -/
theorem getProductFromCache_performs_no_write
    (um : String → Except GoErr Product) (cache : CacheState)
    (productID currIdx : Int) :
    (getProductFromCache um cache productID currIdx).redisOps =
        [RedisOp.get ("product:" ++ toString productID)] ∧
      ∀ op ∈ (getProductFromCache um cache productID currIdx).redisOps,
        op.isWrite = false := by
  refine ⟨rfl, ?_⟩
  intro op hop
  simp [getProductFromCache, fetchProductFn] at hop
  simp [hop, RedisOp.isWrite]

/-- The outcome of one mutex.Unlock call: the released flag and the error. -/
structure UnlockOutcome where
  released : Bool
  error : Option GoErr
deriving DecidableEq, Repr

/-- The deferred closure at lines 181-185 of AddToBankAccountWithMutex acting
on the named result err: inside the closure the short variable declaration
binds fresh ok and err variables that shadow the named result, the branch
merely returns from the closure, and the outer err is never assigned, so the
closure maps the named result to itself whatever Unlock reported. -/
def unlockDeferred (u : UnlockOutcome) (err : Option GoErr) : Option GoErr :=
  let ok := u.released
  let errLocal := u.error
  if !ok || errLocal.isSome then err else err

/-- Lines 171-190 of AddToBankAccountWithMutex as a function of the Lock
outcome and the Unlock outcome: a Lock error is returned at once (before the
deferred closure is registered); otherwise the empty critical section leaves
the named result nil and the deferred closure runs over it on return. -/
def addToBankAccountWithMutex (lockErr : Option GoErr) (u : UnlockOutcome) :
    Option GoErr :=
  match lockErr with
  | some e => some e
  | none => unlockDeferred u none

/-- C10: the error AddToBankAccountWithMutex returns never depends on the
outcome of the deferred Unlock: after a successful Lock and a nil body
result the function returns nil even when Unlock reports released = false or
a non-nil error, and in general any two Unlock outcomes yield the same
return value. -/
theorem addToBankAccount_swallows_unlock_failure :
    (∀ u : UnlockOutcome, addToBankAccountWithMutex none u = none) ∧
      ∀ (lockErr : Option GoErr) (u u' : UnlockOutcome),
        addToBankAccountWithMutex lockErr u =
          addToBankAccountWithMutex lockErr u' := by
  constructor
  · intro u
    simp [addToBankAccountWithMutex, unlockDeferred]
  · intro lockErr u u'
    cases lockErr <;> simp [addToBankAccountWithMutex, unlockDeferred]

/-- Modelled from the spec: the status of one caller of ProccesWrapper over a
shared Singleflight key. The Group.Do internals of
golang.org/x/sync/singleflight are not under src/; per spec sections 4.1 and
5 a caller is idle before invoking, becomes the executor of the work
function when no Call is registered, joins as a waiter when one is, and is
done once the completion broadcast delivers the stored (value, error) pair. -/
inductive CallerStatus where
  | idle : CallerStatus
  | executing : CallerStatus
  | waiting : CallerStatus
  | done (res : GoAny × Option GoErr) : CallerStatus
deriving DecidableEq, Repr

/-- Modelled from the spec: the coalescer state for one key and n callers:
each caller has a status, inflight records whether a Call is registered for
the key, and execCount counts executions of the work function. -/
structure CoState (n : Nat) where
  callers : Fin n → CallerStatus
  inflight : Bool
  execCount : Nat

/-- The initial coalescer state: no Call registered, nobody has invoked. -/
def initCo (n : Nat) : CoState n :=
  ⟨fun _ => CallerStatus.idle, false, 0⟩

/-- Modelled from the spec: caller i invokes Execute for the key. The
check-registry-or-register step is atomic: if a Call is in flight the caller
joins as a waiter, otherwise it registers the Call and starts the single
execution of the work function. Invoking twice is not a valid step. -/
def invoke {n : Nat} (s : CoState n) (i : Fin n) : Option (CoState n) :=
  match s.callers i with
  | CallerStatus.idle =>
      if s.inflight then
        some { s with
          callers := fun j =>
            if j = i then CallerStatus.waiting else s.callers j }
      else
        some ⟨fun j =>
            if j = i then CallerStatus.executing else s.callers j,
          true, s.execCount + 1⟩
  | _ => none

/-- The effect of the completion broadcast on one caller: the executor and
every joined waiter observe the stored pair; others are untouched. -/
def broadcastResult (r : GoAny × Option GoErr) :
    CallerStatus → CallerStatus
  | CallerStatus.executing => CallerStatus.done r
  | CallerStatus.waiting => CallerStatus.done r
  | st => st

/-- Modelled from the spec: the single execution completes with pair r; the
result is stored, broadcast to the executor and all joined waiters
atomically, and the Call is deregistered. -/
def completeCall {n : Nat} (r : GoAny × Option GoErr) (s : CoState n) :
    Option (CoState n) :=
  if s.inflight then
    some ⟨fun j => broadcastResult r (s.callers j), false, s.execCount⟩
  else none

/-- Runs a list of invoke steps in order. -/
def runInvokes {n : Nat} : List (Fin n) → CoState n → Option (CoState n)
  | [], s => some s
  | i :: t, s => (invoke s i).bind (runInvokes t)

/-- The pair a caller gets back from ProccesWrapper once done: the stored
Group.Do result pushed through the type assertion of lines 34-40. -/
def callerReturn : CallerStatus → Option (Option Product × Option GoErr)
  | CallerStatus.done r => some (proccesWrapperResult r.1 r.2)
  | _ => none

/-- The coalescer state right after the first caller a registers the Call
and starts the single execution. -/
def startState {n : Nat} (a : Fin n) : CoState n :=
  ⟨fun j => if j = a then CallerStatus.executing else CallerStatus.idle,
   true, 1⟩

/-- Invoke steps taken while a Call is in flight only add waiters: the
execution count and every caller outside the list are unchanged. -/
theorem runInvokes_join {n : Nat} (l : List (Fin n)) :
    ∀ s : CoState n, l.Nodup → s.inflight = true →
      (∀ i ∈ l, s.callers i = CallerStatus.idle) →
      ∃ s', runInvokes l s = some s' ∧ s'.inflight = true ∧
        s'.execCount = s.execCount ∧
        (∀ i ∈ l, s'.callers i = CallerStatus.waiting) ∧
        (∀ i, i ∉ l → s'.callers i = s.callers i) := by
  induction l with
  | nil =>
    intro s _ hin _
    exact ⟨s, rfl, hin, rfl, by simp, fun i _ => rfl⟩
  | cons a t ih =>
    intro s hnd hin hidle
    have ha : s.callers a = CallerStatus.idle := hidle a (by simp)
    have hanot : a ∉ t := (List.nodup_cons.mp hnd).1
    have hndt : t.Nodup := (List.nodup_cons.mp hnd).2
    have hstep : invoke s a = some { s with
        callers := fun j =>
          if j = a then CallerStatus.waiting else s.callers j } := by
      simp [invoke, ha, hin]
    have hidleT : ∀ i ∈ t,
        (fun j => if j = a then CallerStatus.waiting else s.callers j) i =
          CallerStatus.idle := by
      intro i hi
      have hia : i ≠ a := fun h => hanot (h ▸ hi)
      show (if i = a then CallerStatus.waiting else s.callers i) =
        CallerStatus.idle
      rw [if_neg hia]
      exact hidle i (List.mem_cons_of_mem a hi)
    obtain ⟨s', hrun, hin', hcnt, hwait, hframe⟩ :=
      ih { s with callers := fun j =>
            if j = a then CallerStatus.waiting else s.callers j }
        hndt hin hidleT
    refine ⟨s', ?_, hin', hcnt, ?_, ?_⟩
    · simp [runInvokes, hstep, hrun]
    · intro i hi
      rcases List.mem_cons.mp hi with hi | hi
      · subst hi
        rw [hframe i hanot]
        simp
      · exact hwait i hi
    · intro i hi
      have hia : i ≠ a := fun h => hi (h ▸ List.mem_cons_self a t)
      have hit : i ∉ t := fun h => hi (List.mem_cons_of_mem a h)
      rw [hframe i hit]
      simp [hia]

/-- C1: for every n greater than zero concurrent ProccesWrapper invocations
over the same Singleflight key, all issued (in any order l) before the first
completes, the wrapped work function executes exactly once, every caller
ends done with the identical stored pair r, and every caller receives the
identical (value, error) pair obtained by pushing r through the type
assertion of ProccesWrapper. -/
theorem coalescer_executes_once {n : Nat} (hn : 0 < n) (l : List (Fin n))
    (hnd : l.Nodup) (hall : ∀ i : Fin n, i ∈ l) (r : GoAny × Option GoErr) :
    ∃ sf : CoState n,
      (runInvokes l (initCo n)).bind (completeCall r) = some sf ∧
        sf.execCount = 1 ∧
        (∀ i, sf.callers i = CallerStatus.done r) ∧
        ∀ i, callerReturn (sf.callers i) =
          some (proccesWrapperResult r.1 r.2) := by
  cases l with
  | nil =>
    exact absurd (hall ⟨0, hn⟩) (List.not_mem_nil _)
  | cons a t =>
    have hanot : a ∉ t := (List.nodup_cons.mp hnd).1
    have hndt : t.Nodup := (List.nodup_cons.mp hnd).2
    have hstep : invoke (initCo n) a = some (startState a) := rfl
    have hidleT : ∀ i ∈ t, (startState a).callers i = CallerStatus.idle := by
      intro i hi
      have hia : i ≠ a := fun h => hanot (h ▸ hi)
      simp [startState, hia]
    obtain ⟨s', hrun, hin', hcnt, hwait, hframe⟩ :=
      runInvokes_join t (startState a) hndt rfl hidleT
    have hdone : ∀ j, broadcastResult r (s'.callers j) =
        CallerStatus.done r := by
      intro j
      by_cases hja : j = a
      · subst hja
        rw [hframe j hanot]
        simp [startState, broadcastResult]
      · have hjt : j ∈ t := by
          rcases List.mem_cons.mp (hall j) with h | h
          · exact absurd h hja
          · exact h
        rw [hwait j hjt]
        simp [broadcastResult]
    refine ⟨⟨fun _ => CallerStatus.done r, false, s'.execCount⟩, ?_, ?_,
      fun i => rfl, fun i => rfl⟩
    · have hr : runInvokes (a :: t) (initCo n) = some s' := by
        simp [runInvokes, hstep, hrun]
      have hc : completeCall r s' = some
          ⟨fun j => broadcastResult r (s'.callers j), false,
            s'.execCount⟩ := by
        simp [completeCall, hin']
      rw [hr]
      show completeCall r s' = _
      rw [hc]
      exact congrArg some
        (congrArg (fun f => CoState.mk f false s'.execCount) (funext hdone))
    · exact hcnt

/-- A concrete stored pair for the C1 witness: a boxed product and no error. -/
def samplePair : GoAny × Option GoErr :=
  (boxProductPtr (some ⟨1, "Product 1"⟩), none)

/-- Witness for C1: two concrete callers invoke in order before the single
execution completes with a concrete stored pair. -/
theorem coalescer_executes_once_witness :
    ∃ sf : CoState 2,
      (runInvokes [0, 1] (initCo 2)).bind (completeCall samplePair) =
          some sf ∧
        sf.execCount = 1 ∧
        (∀ i, sf.callers i = CallerStatus.done samplePair) ∧
        ∀ i, callerReturn (sf.callers i) =
          some (proccesWrapperResult samplePair.1 samplePair.2) :=
  coalescer_executes_once (by decide) [0, 1] (by decide) (by decide)
    samplePair

/-- Modelled from the spec: one lease record in the shared lease store of the
distributed mutex (redsync is not under src/): the lock name, the owner
token of the acquisition, and the absolute expiry instant; per spec section
3 the backing store is the source of truth for leases. -/
structure Lease where
  name : String
  owner : String
  expiry : Nat
deriving DecidableEq, Repr

/-- Modelled from the spec: the shared lease store plus a clock, the entire
shared state of the distributed mutex per spec section 5. -/
structure LockStoreState where
  leases : List Lease
  now : Nat
deriving DecidableEq, Repr

/-- A lease is unexpired at instant t when t is before its expiry. -/
def Lease.unexpired (l : Lease) (t : Nat) : Bool :=
  decide (t < l.expiry)

/-- Modelled from the spec: the atomic conditional create of the lease store
(spec section 6, TryCreate): the lease is created if and only if no
unexpired lease exists for the name; on refusal the store is unchanged. -/
def tryCreate (s : LockStoreState) (nm owner : String) (ttl : Nat) :
    Bool × LockStoreState :=
  if s.leases.any (fun l => l.name == nm && l.unexpired s.now) then
    (false, s)
  else
    (true, ⟨⟨nm, owner, s.now + ttl⟩ :: s.leases, s.now⟩)

/-- Modelled from the spec: the atomic conditional delete of the lease store
(spec section 6, DeleteIfOwner): only records whose name and owner token
both match are removed. -/
def deleteIfOwner (s : LockStoreState) (nm owner : String) :
    Bool × LockStoreState :=
  (s.leases.any (fun l => l.name == nm && l.owner == owner),
   ⟨s.leases.filter (fun l => !(l.name == nm && l.owner == owner)), s.now⟩)

/-- One step of the lease store: time advancing (expiry is reaching the
deadline, never an explicit store write), a Lock attempt, or an Unlock
attempt. -/
inductive LockEvent where
  | tick (d : Nat) : LockEvent
  | lockAttempt (nm owner : String) (ttl : Nat) : LockEvent
  | unlockAttempt (nm owner : String) : LockEvent
deriving DecidableEq, Repr

/-- The state transition of one lease-store event. -/
def lockStep (e : LockEvent) (s : LockStoreState) : LockStoreState :=
  match e with
  | .tick d => ⟨s.leases, s.now + d⟩
  | .lockAttempt nm owner ttl => (tryCreate s nm owner ttl).2
  | .unlockAttempt nm owner => (deleteIfOwner s nm owner).2

/-- Runs a list of lease-store events in order. -/
def runLockEvents (evs : List LockEvent) (s : LockStoreState) :
    LockStoreState :=
  evs.foldl (fun s e => lockStep e s) s

/-- The initial lease store: empty, clock at zero. -/
def initLockStore : LockStoreState :=
  ⟨[], 0⟩

/-- The mutual-exclusion invariant: no two distinct lease records of the same
name are both unexpired at the current instant. -/
def atMostOneUnexpired (s : LockStoreState) : Prop :=
  s.leases.Pairwise fun a b => a.name = b.name →
    ¬(a.unexpired s.now = true ∧ b.unexpired s.now = true)

/-- A lease unexpired at a later instant was unexpired earlier. -/
theorem Lease.unexpired_mono (l : Lease) (t d : Nat)
    (h : l.unexpired (t + d) = true) : l.unexpired t = true := by
  simp only [Lease.unexpired, decide_eq_true_eq] at h ⊢
  exact lt_of_le_of_lt (Nat.le_add_right t d) h

/-- Every lease-store step preserves the mutual-exclusion invariant. -/
theorem lockStep_preserves (e : LockEvent) (s : LockStoreState)
    (h : atMostOneUnexpired s) : atMostOneUnexpired (lockStep e s) := by
  cases e with
  | tick d =>
    refine List.Pairwise.imp ?_ h
    intro a b hab hname hun
    exact hab hname
      ⟨a.unexpired_mono s.now d hun.1, b.unexpired_mono s.now d hun.2⟩
  | lockAttempt nm owner ttl =>
    by_cases hc : s.leases.any
        (fun l => l.name == nm && l.unexpired s.now) = true
    · simpa [lockStep, tryCreate, hc] using h
    · have hnone : ∀ l ∈ s.leases,
          ¬(l.name = nm ∧ l.unexpired s.now = true) := by
        intro l hl
        have := List.any_eq_false.mp (Bool.eq_false_iff.mpr hc) l hl
        simpa using this
      have hgoal : atMostOneUnexpired
          ⟨⟨nm, owner, s.now + ttl⟩ :: s.leases, s.now⟩ := by
        refine List.pairwise_cons.mpr ⟨?_, ?_⟩
        · intro b hb hname hun
          exact hnone b hb ⟨hname.symm, hun.2⟩
        · exact h
      simpa [lockStep, tryCreate, hc] using hgoal
  | unlockAttempt nm owner =>
    exact List.Pairwise.sublist (List.filter_sublist _) h

/-- Running any event list preserves the mutual-exclusion invariant. -/
theorem runLockEvents_preserves (evs : List LockEvent) :
    ∀ s : LockStoreState, atMostOneUnexpired s →
      atMostOneUnexpired (runLockEvents evs s) := by
  induction evs with
  | nil => exact fun s h => h
  | cons e t ih => exact fun s h => ih (lockStep e s) (lockStep_preserves e s h)

/-- C3: in every state reachable by any interleaving of lease-store steps
(conditional create, owner-checked delete, expiry through time passing) at
most one unexpired lease exists per lock name; hence while a lease held by
owner oA for a name is unexpired, a Lock attempt by any different owner oB
for that name does not acquire. -/
theorem lease_store_mutual_exclusion (evs : List LockEvent)
    (nm oA oB : String) (ttl : Nat) (lA : Lease) (hne : oA ≠ oB)
    (hmem : lA ∈ (runLockEvents evs initLockStore).leases)
    (hname : lA.name = nm) (hownA : lA.owner = oA)
    (hunexp : lA.unexpired (runLockEvents evs initLockStore).now = true) :
    atMostOneUnexpired (runLockEvents evs initLockStore) ∧
      (tryCreate (runLockEvents evs initLockStore) nm oB ttl).1 = false := by
  have hinv := runLockEvents_preserves evs initLockStore
    (by simp [atMostOneUnexpired, initLockStore])
  refine ⟨hinv, ?_⟩
  have hany : (runLockEvents evs initLockStore).leases.any
      (fun l => l.name == nm &&
        l.unexpired (runLockEvents evs initLockStore).now) = true := by
    refine List.any_eq_true.mpr ⟨lA, hmem, ?_⟩
    simp [hname, hunexp]
  simp [tryCreate, hany]

/-- Witness for C3: owner A acquires the name, and while that lease is
unexpired a Lock attempt by owner B does not acquire. -/
theorem lease_store_mutual_exclusion_witness :
    atMostOneUnexpired
        (runLockEvents [LockEvent.lockAttempt "acct:42" "A" 10]
          initLockStore) ∧
      (tryCreate
        (runLockEvents [LockEvent.lockAttempt "acct:42" "A" 10]
          initLockStore) "acct:42" "B" 5).1 = false :=
  lease_store_mutual_exclusion [LockEvent.lockAttempt "acct:42" "A" 10]
    "acct:42" "A" "B" 5 ⟨"acct:42", "A", 10⟩ (by decide) (by decide) rfl rfl
    (by decide)
